import Mathlib

/-!
# Verification of the `best_filters` template-filter library

Shallow embedding of `best_templatetags/templatetags/best_filters.py`.
Strings are modelled as Lean `String` / `List Char`; Python exceptions are
modelled as `Option`/`Except` results; the external HTML parser
(BeautifulSoup) is modelled by its document-tree data type, with parsing
itself kept abstract (an `Except` outcome), since only the tree
transformation lives in this repository.
-/

namespace BestFilters

/-- Python `\s` whitespace class, restricted to the ASCII range (the only
range exercised here): space, tab, newline, carriage return, vertical tab,
form feed. -/
def isPyWs (c : Char) : Bool :=
  c == ' ' || c == '\t' || c == '\n' || c == '\r' ||
    c == Char.ofNat 11 || c == Char.ofNat 12

/-- Split a character list at every character satisfying `p`, keeping empty
chunks — the semantics of Python `str.split(sep)` for a one-character
separator, generalised to a predicate. -/
def splitOnP (p : Char → Bool) : List Char → List (List Char)
  | [] => [[]]
  | c :: rest =>
    if p c then [] :: splitOnP p rest
    else
      match splitOnP p rest with
      | [] => [[c]]
      | h :: t => (c :: h) :: t

/-- Python `str.split()` with no argument: split on whitespace runs,
dropping empty chunks. -/
def splitWS (l : List Char) : List (List Char) :=
  (splitOnP isPyWs l).filter (· ≠ [])

/-- Policy parsing from `sanitize` (lines 217–218 of the source):
`allowed_tags = [tag.split(':') for tag in allowed_tags.split()]` followed by
`dict((tag[0], tag[1:]) for tag in allowed_tags)`.  The dict is kept as the
association list in insertion order; lookup takes the last binding, matching
Python dict overwrite-on-duplicate. -/
def parsePolicy (s : String) : List (String × List String) :=
  (splitWS s.toList).map fun tok =>
    match splitOnP (· == ':') tok with
    | [] => ("", [])
    | h :: t => (String.mk h, t.map String.mk)

/-- Python dict lookup on the parsed policy: the last binding for a key wins
(`dict(...)` overwrites duplicates); `none` models `tag.name not in
allowed_tags`. -/
def polGet (p : List (String × List String)) (n : String) : Option (List String) :=
  (p.reverse.find? fun pr => pr.1 == n).map (·.2)

/-!
## The attribute-value scrubber

Line 216 of the source compiles
`js_regex = re.compile(r'[\s]*(&#x.{1,7})?'.join(list('javascript')))`:
the ten literal characters of `javascript` in sequence, with
`[\s]*(&#x.{1,7})?` between each consecutive pair.  No flag is passed, so
matching is case-sensitive.  `.` matches any character except `'\n'`.  The
matcher below reproduces the backtracking search of `re`: the optional
`&#x` group is tried before its absence, repetition counts of `.{1,7}` are
tried greedily from 7 down to 1, and `[\s]*` is matched by maximal munch
(exact here: a shorter whitespace run leaves a whitespace character in
front of the alternatives `&` / a keyword letter, which both fail). -/

/-- Backtracking helper for `.{1,7}`: try junk lengths `n, n-1, …, 1`
(each junk character must not be `'\n'`), then hand the remainder to the
continuation `k` (which matches the following literal character). -/
def tryJunk (k : List Char → Option (List Char)) : Nat → List Char → Option (List Char)
  | 0, _ => none
  | n + 1, t =>
    ((if (t.take (n + 1)).length = n + 1 && (t.take (n + 1)).all (· ≠ '\n') then
        k (t.drop (n + 1))
      else none)).orElse fun _ => tryJunk k n t

/-- Match the tail of the `js_regex` pattern: for each remaining keyword
character, `[\s]*(&#x.{1,7})?` followed by that literal character.  Returns
the unconsumed remainder on success. -/
def matchRest : List Char → List Char → Option (List Char)
  | [], s => some s
  | c :: cs, s =>
    let s1 := s.dropWhile isPyWs
    let lit : List Char → Option (List Char) := fun t =>
      match t with
      | t0 :: trest => if t0 = c then matchRest cs trest else none
      | [] => none
    (if s1.take 3 = ['&', '#', 'x'] then tryJunk lit 7 (s1.drop 3) else none).orElse
      fun _ => lit s1

/-- Does `js_regex` match at the head of `s`?  On success, returns what
follows the match. -/
def jsMatchAt (s : List Char) : Option (List Char) :=
  match s with
  | c :: rest => if c = 'j' then matchRest "avascript".toList rest else none
  | [] => none

/-- `js_regex.sub('', value)` on character lists: scan left to right, delete
every leftmost non-overlapping match, continue after it.  The fuel is the
input length, which suffices because every step consumes at least one
character. -/
def jsSubAux : Nat → List Char → List Char
  | 0, s => s
  | _ + 1, [] => []
  | f + 1, c :: rest =>
    match jsMatchAt (c :: rest) with
    | some rem => jsSubAux f rem
    | none => c :: jsSubAux f rest

/-- `js_regex.sub('', value)` from line 232 of the source. -/
def js_sub (s : String) : String :=
  String.mk (jsSubAux s.toList.length s.toList)

/-- `re.search` with `js_regex`: does the pattern match anywhere? -/
def jsSearchAux : List Char → Bool
  | [] => false
  | c :: rest => (jsMatchAt (c :: rest)).isSome || jsSearchAux rest

/-- Whether `js_regex` matches somewhere in `s` (the "detection pattern"
fires on `s`). -/
def jsSearch (s : String) : Bool :=
  jsSearchAux s.toList

/-!
## The document tree and the sanitize pipeline

BeautifulSoup's parse tree, reduced to what `sanitize` manipulates: element
nodes carry a tag name, the `hidden` flag (rendering suppresses a hidden
element's own tags but still renders its children), an ordered attribute
list of name/value pairs, and children; the other nodes are text and
comments.  The parser itself is external to the repository and is modelled
by its outcome: an `Except` value, error on a structural parse failure. -/

inductive Node where
  | text : String → Node
  | comment : String → Node
  | elem : String → Bool → List (String × String) → List Node → Node

/-- Lines 225–226: `soup.findAll(text=lambda text: isinstance(text, Comment))`
followed by `comment.extract()` — every comment node, at any depth, is
removed from the tree (no placeholder is left). -/
def stripComments : List Node → List Node
  | [] => []
  | .comment _ :: rest => stripComments rest
  | .text s :: rest => .text s :: stripComments rest
  | .elem n h a ch :: rest => .elem n h a (stripComments ch) :: stripComments rest

/-- The attribute rewrite of line 232:
`[(attr, js_regex.sub('', val)) for attr, val in tag.attrs if attr in allowed_tags[tag.name]]`. -/
def filterScrub (al : List String) (a : List (String × String)) : List (String × String) :=
  (a.filter fun pr => al.contains pr.1).map fun pr => (pr.1, js_sub pr.2)

/-- Lines 228–233: `for tag in soup.findAll(True)` — every element node.  A
tag whose name is not a policy key gets `tag.hidden = True` (attributes
untouched); an allowed tag keeps exactly its allowed attributes, each value
scrubbed by `js_regex.sub`. -/
def applyPolicy (p : List (String × List String)) : List Node → List Node
  | [] => []
  | .text s :: rest => .text s :: applyPolicy p rest
  | .comment s :: rest => .comment s :: applyPolicy p rest
  | .elem n h a ch :: rest =>
    match polGet p n with
    | none => .elem n true a (applyPolicy p ch) :: applyPolicy p rest
    | some al => .elem n h (filterScrub al a) (applyPolicy p ch) :: applyPolicy p rest

/-- Serialisation of one attribute pair inside a start tag. -/
def renderAttr (pr : String × String) : String :=
  " " ++ pr.1 ++ "=\"" ++ pr.2 ++ "\""

/-- `soup.renderContents().decode('utf8')` (line 235), modelling
BeautifulSoup's serialiser: text and comments are emitted verbatim, a
hidden element contributes only its children, a visible element its start
tag (with attributes), children, and end tag. -/
def render : List Node → String
  | [] => ""
  | .text s :: rest => s ++ render rest
  | .comment s :: rest => "<!--" ++ s ++ "-->" ++ render rest
  | .elem n h a ch :: rest =>
    (if h then render ch
     else "<" ++ n ++ String.join (a.map renderAttr) ++ ">" ++ render ch ++ "</" ++ n ++ ">")
      ++ render rest

/-- The successful branch of `sanitize`: parse-tree in, cleaned string out. -/
def sanitizeSoup (allowed_tags : String) (soup : List Node) : String :=
  render (applyPolicy (parsePolicy allowed_tags) (stripComments soup))

/-- Django's `escape` (the five HTML-special characters), applied by
`linenumbers` to each line.  An apostrophe is `Char.ofNat 39`. -/
def djEscape (s : String) : String :=
  String.join (s.toList.map fun c =>
    if c = '&' then "&amp;"
    else if c = '<' then "&lt;"
    else if c = '>' then "&gt;"
    else if c = '"' then "&quot;"
    else if c = Char.ofNat 39 then "&#x27;"
    else String.singleton c)

/-- Zero-padded decimal of width `w`, Python `'%0<w>d' % n`. -/
def zeroPad (w : Nat) (n : Nat) : String :=
  String.mk (List.replicate (w - (toString n).length) '0') ++ toString n

/-- Join with a newline between entries, Python `'\n'.join(lines)`. -/
def joinNL : List String → String
  | [] => ""
  | s :: rest => s ++ (if rest.isEmpty then "" else "\n" ++ joinNL rest)

/-- `django.template.defaultfilters.linenumbers(value, True)` (external
dependency, modelled directly): split on `'\n'`, prefix each line with its
1-based zero-padded number and `". "`, escaping each line. -/
def linenumbers (v : String) : String :=
  let lines := (splitOnP (· == '\n') v.toList).map String.mk
  let w := (toString lines.length).length
  joinNL (lines.enum.map fun pr => zeroPad w (pr.1 + 1) ++ ". " ++ djEscape pr.2)

/-- The static hint emitted on a parse failure (line 223 of the source;
`ugettext` is the identity without a message catalog). -/
def sanitizeHint : String :=
  "You have a HTML syntax error, please, check you have quote href and src attributes, that is href=\"xxx\" or src=\"yyy\" and not href=xxx or src=yyy"

/-- `sanitize(value, allowed_tags)` (lines 211–235).  The only fallible step
is `BeautifulSoup(value)`, wrapped in `try/except`; its outcome is the
`Except` argument (error = the exception's message).  The function is total:
the error branch returns the diagnostic fragment as an ordinary result. -/
def sanitize (parsed : Except String (List Node)) (value allowed_tags : String) : String :=
  match parsed with
  | .error e =>
    "<br><span class=\"warning\">" ++ e ++ " :<br>" ++ sanitizeHint
      ++ "</span><br><pre class=\"sanitize\">" ++ linenumbers value ++ "</pre>"
  | .ok soup => sanitizeSoup allowed_tags soup

/-!
## Peripheral filters -/

/-- Python `str.replace(pat, rep)`: replace every leftmost non-overlapping
occurrence, left to right.  An empty `pat` inserts `rep` before every
character and at the end, as Python does.  The fuel `s.length + 1` is
exact: every step consumes at least one input character. -/
def pyReplace : Nat → List Char → List Char → List Char → List Char
  | 0, s, _, _ => s
  | _ + 1, [], pat, rep => if pat = [] then rep else []
  | f + 1, c :: rest, pat, rep =>
    if pat = [] then rep ++ c :: pyReplace f rest pat rep
    else if pat.isPrefixOf (c :: rest) then
      rep ++ pyReplace f (List.drop pat.length (c :: rest)) pat rep
    else c :: pyReplace f rest pat rep

/-- String wrapper for `pyReplace`. -/
def pyReplaceStr (s pat rep : String) : String :=
  String.mk (pyReplace (s.toList.length + 1) s.toList pat.toList rep.toList)

/-- `replace(str, arg)` (lines 112–116): `sep = arg[0]`,
`params = arg.split(sep)`, then `str.replace(params[1], params[2])`.
`none` models the uncaught `IndexError` when `arg` is empty or the split
yields fewer than three parts; parts beyond the third are ignored. -/
def replace (s arg : String) : Option String :=
  match arg.toList with
  | [] => none
  | sep :: _ =>
    match splitOnP (· == sep) arg.toList with
    | _ :: p1 :: p2 :: _ => some (pyReplaceStr s (String.mk p1) (String.mk p2))
    | _ => none

/-- `divide(val, arg)` (lines 74–90): Python `/` true division, modelled on
`ℚ`; `none` models the `ZeroDivisionError` raised for a zero divisor. -/
def divide (val arg : ℚ) : Option ℚ :=
  if arg = 0 then none else some (val / arg)

/-- A Python `datetime.date`: plain integer fields, as `age` reads them. -/
structure PyDate where
  year : Int
  month : Int
  day : Int

/-- `age(bday, d)` (lines 146–160):
`(d.year - bday.year) - int((d.month, d.day) < (bday.month, bday.day))`,
Python tuple comparison being lexicographic. -/
def age (bday d : PyDate) : Int :=
  (d.year - bday.year) -
    (if d.month < bday.month ∨ (d.month = bday.month ∧ d.day < bday.day) then 1 else 0)

/-- `truncat(str, pattern)` (lines 162–179) evaluates
`re.sub(pattern + '.*', '', str)`.  The pattern argument is modelled for the
class the filter documents: a (possibly escaped) literal string, here given
already unescaped (`"\."` is the literal `"."`).  Scan left to right; at a
match, delete the matched literal and — because `.` does not match a
newline — everything up to the next `'\n'` (exclusive), then continue; an
empty pattern makes `.*` delete every line's content, keeping only the
newlines.  The fuel `s.length + 1` is exact. -/
def truncatAux : Nat → List Char → List Char → List Char
  | 0, _, s => s
  | _ + 1, _, [] => []
  | f + 1, pat, c :: rest =>
    if pat.isPrefixOf (c :: rest) then
      truncatAux f pat ((List.drop pat.length (c :: rest)).dropWhile (· ≠ '\n'))
    else c :: truncatAux f pat rest

/-- `truncat` on lists, with the Python empty-pattern special case. -/
def truncatL (pat s : List Char) : List Char :=
  if pat = [] then s.filter (· == '\n') else truncatAux (s.length + 1) pat s

/-- String wrapper for `truncat(str, pattern)`. -/
def truncat (s pattern : String) : String :=
  String.mk (truncatL pattern.toList s.toList)

/-- `timesince_simple(t1, t2)` (lines 181–203), as a function of
`days = (t2 - t1).days`.  The source reads: `if days:` (true exactly when
`days != 0`), then an `if not days: return 'today'` branch that is
unreachable, then the threshold ladder; when `days == 0` the function falls
off the end and returns Python `None`, modelled as `none`.  `int(x)` on the
positive quotients is truncation; `365.25 = 1461/4` is exact in binary
floating point, so `int(days / 365.25)` is `days * 4 / 1461`. -/
def timesince_simple (days : Int) : Option String :=
  if days ≠ 0 then
    some
      (if days = 0 then "today"
       else if days < 7 then toString days ++ " days"
       else if days < 14 then "one week"
       else if days < 30 then toString (days / 7) ++ " weeks"
       else if days < 60 then "one month"
       else if days < 365 then toString (days / 30) ++ " months"
       else if days < 730 then "one year"
       else toString (days * 4 / 1461) ++ " years")
  else none

/-- `needle` occurs as a contiguous substring of `hay`. -/
def strContains (needle hay : String) : Prop :=
  needle.toList <:+: hay.toList

/-- No comment node occurs anywhere in the forest. -/
def noComments : List Node → Bool
  | [] => true
  | .comment _ :: _ => false
  | .text _ :: rest => noComments rest
  | .elem _ _ _ ch :: rest => noComments ch && noComments rest

/-- The attributes of an element named `n` are all permitted by policy `p`:
`n` is a policy key and every attribute name is in its allowed list. -/
def attrsOk (p : List (String × List String)) (n : String)
    (a : List (String × String)) : Bool :=
  match polGet p n with
  | none => false
  | some al => a.all fun pr => al.contains pr.1

/-- Every element of the forest is policy-conformant: hidden (so its tags
and attributes are not rendered) or an allowed tag carrying only allowed
attributes. -/
def elemsAllowed (p : List (String × List String)) : List Node → Bool
  | [] => true
  | .text _ :: rest => elemsAllowed p rest
  | .comment _ :: rest => elemsAllowed p rest
  | .elem n h a ch :: rest =>
    (h || attrsOk p n a) && elemsAllowed p ch && elemsAllowed p rest

/-- One separator before each remaining keyword character: the shape of the
strings the tail of `js_regex` is meant to match. -/
def weaveS : List (List Char) → List Char → List Char
  | s :: ss, c :: cs => s ++ (c :: weaveS ss cs)
  | _, _ => []

/-!
## Claim theorems -/

/-- C7: `divide(val, arg)` fails with a division-by-zero error (the `none`
outcome, modelling the uncaught `ZeroDivisionError`) exactly when the
divisor `arg` is zero; for a nonzero divisor it returns the quotient, in
particular `divide 50 2 = 25`. -/
theorem divide_spec :
    (∀ v a : ℚ, divide v a = none ↔ a = 0)
    ∧ (∀ v a : ℚ, a ≠ 0 → divide v a = some (v / a))
    ∧ divide 50 2 = some 25 := by
  refine ⟨fun v a => ?_, fun v a h => ?_, ?_⟩
  · unfold divide
    split <;> simp_all
  · simp [divide, h]
  · norm_num [divide]

/-- C7 witness: the nonzero-divisor clause of `divide_spec` applied at
`val = 50`, `arg = 2`. -/
theorem divide_spec_witness : divide 50 2 = some (50 / 2) :=
  divide_spec.2.1 50 2 (by norm_num)

/-- C8: `age(bday, d)` is the year difference `d.year - bday.year`,
decremented by one exactly when `(d.month, d.day)` lexicographically
precedes `(bday.month, bday.day)`; in particular
`age(date(2006,11,9), date(2018,11,8)) = 11` and
`age(date(2006,11,9), date(2018,11,9)) = 12`. -/
theorem age_spec :
    (∀ b d : PyDate,
      (d.month < b.month ∨ (d.month = b.month ∧ d.day < b.day) →
        age b d = d.year - b.year - 1)
      ∧ (¬(d.month < b.month ∨ (d.month = b.month ∧ d.day < b.day)) →
        age b d = d.year - b.year))
    ∧ age ⟨2006, 11, 9⟩ ⟨2018, 11, 8⟩ = 11
    ∧ age ⟨2006, 11, 9⟩ ⟨2018, 11, 9⟩ = 12 := by
  refine ⟨fun b d => ⟨fun h => ?_, fun h => ?_⟩, by decide, by decide⟩
  · unfold age
    rw [if_pos h]
  · unfold age
    rw [if_neg h]
    ring

/-- C8 witness: the decrement clause of `age_spec` at the concrete pair of
dates from the spec. -/
theorem age_spec_witness :
    age ⟨2006, 11, 9⟩ ⟨2018, 11, 8⟩ = (2018 : Int) - 2006 - 1 :=
  (age_spec.1 ⟨2006, 11, 9⟩ ⟨2018, 11, 8⟩).1 (by decide)

/-- C9 (code bug): the claim says a 0-day duration yields "today", but the
source guards the whole ladder with `if days:`, so for `days == 0` the
function falls off the end and returns Python `None`; the `return
_('today')` branch is dead code.  The nonzero buckets behave as claimed. -/
theorem timesince_simple_zero_bug :
    timesince_simple 0 = none
    ∧ timesince_simple 1 = some "1 days"
    ∧ timesince_simple 10 = some "one week"
    ∧ timesince_simple 21 = some "3 weeks"
    ∧ timesince_simple 45 = some "one month"
    ∧ timesince_simple 200 = some "6 months"
    ∧ timesince_simple 400 = some "one year"
    ∧ timesince_simple 3000 = some "8 years" := by
  refine ⟨by decide, by decide, by decide, by decide, by decide, by decide, by decide, by decide⟩

/-- C6 counterexample: an argument that splits into four parts, not three.
The claim says the call must fail, but the code ignores the extra part and
succeeds. -/
theorem replace_four_parts_cex :
    (splitOnP (· == '/') "/a/b/c".toList).length = 4
    ∧ replace "hello a" "/a/b/c" = some "hello b" := by
  refine ⟨by decide, by decide⟩

/-- C6 (amended): `replace(s, arg)` splits `arg` by its first character;
it fails (uncaught `IndexError`) exactly when `arg` is empty or the split
yields fewer than three parts; with three or more parts it replaces every
occurrence of the second part by the third, ignoring any further parts;
`replace("hello world", "/world/eric") = "hello eric"`. -/
theorem replace_amended :
    (∀ (s arg : String) (sep : Char) (tl p0 p1 p2 : List Char) (ps : List (List Char)),
      arg.toList = sep :: tl →
      splitOnP (· == sep) arg.toList = p0 :: p1 :: p2 :: ps →
      replace s arg = some (pyReplaceStr s (String.mk p1) (String.mk p2)))
    ∧ (∀ (s arg : String) (sep : Char) (tl p0 p1 : List Char),
      arg.toList = sep :: tl →
      splitOnP (· == sep) arg.toList = [p0, p1] →
      replace s arg = none)
    ∧ (∀ s : String, replace s "" = none)
    ∧ replace "hello world" "/world/eric" = some "hello eric" := by
  refine ⟨fun s arg sep tl p0 p1 p2 ps h1 h2 => ?_, fun s arg sep tl p0 p1 h1 h2 => ?_,
    fun s => ?_, by decide⟩
  · rw [h1] at h2
    simp only [replace, h1, h2]
  · rw [h1] at h2
    simp only [replace, h1, h2]
  · have h : ("" : String).toList = [] := rfl
    simp only [replace, h]

/-- C6 witness: the success clause of `replace_amended` applied at the
spec's example. -/
theorem replace_amended_witness :
    replace "hello world" "/world/eric"
      = some (pyReplaceStr "hello world" (String.mk "world".toList) (String.mk "eric".toList)) :=
  replace_amended.1 "hello world" "/world/eric" '/' "world/eric".toList
    [] "world".toList "eric".toList [] (by decide) (by decide)

/-- `truncatAux` maps the empty string to itself at any fuel. -/
theorem truncatAux_nil (f : Nat) (pat : List Char) : truncatAux f pat [] = [] := by
  cases f <;> rfl

/-- If no match of `pat` starts before position `a.length` in
`a ++ (pat ++ b)` and `b` has no newline, `truncatAux` keeps exactly `a`. -/
theorem truncatAux_first :
    ∀ (a : List Char) (f : Nat) (pat b : List Char),
      a.length < f → pat ≠ [] → (∀ c ∈ b, c ≠ '\n') →
      (∀ i, i < a.length → pat.isPrefixOf ((a ++ (pat ++ b)).drop i) = false) →
      truncatAux f pat (a ++ (pat ++ b)) = a
  | [], f, pat, b, hf, hpat, hb, _ => by
    match f, hf with
    | f' + 1, _ =>
      match pat, hpat with
      | p :: pt, _ =>
        have hpre : (p :: pt).isPrefixOf (p :: (pt ++ b)) = true := by
          rw [← List.cons_append, List.isPrefixOf_iff_prefix]
          exact List.prefix_append _ b
        have hdw : List.dropWhile (fun x => decide (x ≠ '\n')) b = [] := by
          rw [List.dropWhile_eq_nil_iff]
          intro x hx
          simpa using hb x hx
        show truncatAux (f' + 1) (p :: pt) ([] ++ ((p :: pt) ++ b)) = []
        rw [List.nil_append, List.cons_append]
        simp only [truncatAux, hpre, if_true, List.length_cons, List.drop_succ_cons,
          List.drop_left, hdw, truncatAux_nil]
  | c :: a', f, pat, b, hf, hpat, hb, hno => by
    match f, hf with
    | f' + 1, hf =>
      have h0 : pat.isPrefixOf (c :: (a' ++ (pat ++ b))) = false := by
        have h := hno 0 (by simp)
        simpa using h
      have hrec : truncatAux f' pat (a' ++ (pat ++ b)) = a' :=
        truncatAux_first a' f' pat b (by simpa using Nat.lt_of_succ_lt_succ hf) hpat hb
          (fun i hi => by
            have h := hno (i + 1) (by simpa using Nat.succ_lt_succ hi)
            simpa using h)
      show truncatAux (f' + 1) pat ((c :: a') ++ (pat ++ b)) = c :: a'
      rw [List.cons_append]
      simp only [truncatAux, h0, Bool.false_eq_true, if_false, hrec]

/-- C10 counterexample: with a newline in the input, the deletion stops at
the end of the line and later matches are deleted too, so the output is not
the prefix of the input before the first match. -/
theorem truncat_newline_cex :
    truncat "a.b\nc.d" "." = "a\nc" ∧ truncat "a.b\nc.d" "." ≠ "a" := by
  refine ⟨by decide, by decide⟩

/-- C10 (amended): `truncat(s, p)` is `re.sub(p + '.*', '', s)`: every
match of `p` is deleted together with the rest of its line (`.` does not
cross newlines).  When the part after the first match contains no newline
— in particular for single-line inputs — this equals the prefix of `s`
before the first match; `truncat("abc...xyz", "\.") = "abc"`. -/
theorem truncat_amended :
    (∀ (a pat b : List Char),
      pat ≠ [] → (∀ c ∈ b, c ≠ '\n') →
      (∀ i, i < a.length → pat.isPrefixOf ((a ++ (pat ++ b)).drop i) = false) →
      truncatL pat (a ++ (pat ++ b)) = a)
    ∧ truncat "abc...xyz" "." = "abc" := by
  refine ⟨fun a pat b hpat hb hno => ?_, by decide⟩
  rw [truncatL, if_neg hpat]
  exact truncatAux_first a _ pat b (Nat.lt_succ_of_le (by simp)) hpat hb hno

/-- C10 witness: the first-match clause of `truncat_amended` at the input
`"abc...xyz"` with the literal pattern `"."`. -/
theorem truncat_amended_witness :
    truncatL ".".toList ("abc".toList ++ (".".toList ++ "..xyz".toList)) = "abc".toList :=
  truncat_amended.1 "abc".toList ".".toList "..xyz".toList (by decide) (by decide) (by decide)

/-- `String.append` is list append on the underlying characters. -/
theorem toList_app (a b : String) : (a ++ b).toList = a.toList ++ b.toList := rfl

/-- C1: on a parse failure `sanitize` does not propagate the exception; it
returns (as an ordinary string result — `sanitize` is total) a diagnostic
fragment containing the error message, the static hint about unquoted
`href`/`src` attribute values, and the input reproduced with line numbers. -/
theorem sanitize_error_diagnostic (e value tags : String) :
    strContains e (sanitize (Except.error e) value tags)
    ∧ strContains sanitizeHint (sanitize (Except.error e) value tags)
    ∧ strContains (linenumbers value) (sanitize (Except.error e) value tags) := by
  refine
    ⟨⟨"<br><span class=\"warning\">".toList,
      (" :<br>" ++ sanitizeHint ++ "</span><br><pre class=\"sanitize\">"
        ++ linenumbers value ++ "</pre>").toList, ?_⟩,
     ⟨("<br><span class=\"warning\">" ++ e ++ " :<br>").toList,
      ("</span><br><pre class=\"sanitize\">" ++ linenumbers value ++ "</pre>").toList, ?_⟩,
     ⟨("<br><span class=\"warning\">" ++ e ++ " :<br>" ++ sanitizeHint
        ++ "</span><br><pre class=\"sanitize\">").toList, "</pre>".toList, ?_⟩⟩ <;>
    simp [sanitize, toList_app, List.append_assoc]

/-- C4: a tag absent from the policy is unwrapped, not deleted: sanitizing
an element whose name has no policy entry renders exactly what sanitizing
its children alone renders — the wrapper's start/end tags are suppressed
while the content survives. -/
theorem sanitize_unwrap (ps n : String) (a : List (String × String)) (ch : List Node)
    (h : polGet (parsePolicy ps) n = none) :
    sanitizeSoup ps [Node.elem n false a ch] = sanitizeSoup ps ch := by
  simp [sanitizeSoup, stripComments, applyPolicy, render, h]

/-- C4 witness: `sanitize_unwrap` at a disallowed `script` wrapper around
a text node, under the policy `"b"`. -/
theorem sanitize_unwrap_witness :
    sanitizeSoup "b" [Node.elem "script" false [("x", "y")] [Node.text "hi"]]
      = sanitizeSoup "b" [Node.text "hi"] :=
  sanitize_unwrap "b" "script" [("x", "y")] [Node.text "hi"] (by decide)

/-- `stripComments` removes every comment node, at any depth. -/
theorem noComments_strip : ∀ l : List Node, noComments (stripComments l) = true
  | [] => by simp [stripComments, noComments]
  | .text s :: rest => by simp [stripComments, noComments, noComments_strip rest]
  | .comment s :: rest => by
    simp only [stripComments]
    exact noComments_strip rest
  | .elem n h a ch :: rest => by
    simp [stripComments, noComments, noComments_strip ch, noComments_strip rest]

/-- `applyPolicy` introduces no comment node. -/
theorem noComments_apply :
    ∀ (p : List (String × List String)) (l : List Node),
      noComments l = true → noComments (applyPolicy p l) = true
  | _, [], _ => by simp [applyPolicy, noComments]
  | p, .text s :: rest, h => by
    simp only [noComments] at h
    simp [applyPolicy, noComments, noComments_apply p rest h]
  | _, .comment s :: rest, h => by
    simp [noComments] at h
  | p, .elem n hh a ch :: rest, h => by
    simp only [noComments, Bool.and_eq_true] at h
    cases hp : polGet p n with
    | none =>
      simp [applyPolicy, hp, noComments, noComments_apply p ch h.1,
        noComments_apply p rest h.2]
    | some al =>
      simp [applyPolicy, hp, noComments, noComments_apply p ch h.1,
        noComments_apply p rest h.2]

/-- C5: the tree that `sanitizeSoup` renders contains no comment node:
every comment is removed unconditionally (extracted, leaving no
placeholder), whatever the policy. -/
theorem sanitize_no_comments (ps : String) (soup : List Node) :
    noComments (applyPolicy (parsePolicy ps) (stripComments soup)) = true :=
  noComments_apply _ _ (noComments_strip soup)

/-- After `applyPolicy`, every element is policy-conformant. -/
theorem elemsAllowed_apply :
    ∀ (p : List (String × List String)) (l : List Node),
      elemsAllowed p (applyPolicy p l) = true
  | _, [] => by simp [applyPolicy, elemsAllowed]
  | p, .text s :: rest => by
    simp [applyPolicy, elemsAllowed, elemsAllowed_apply p rest]
  | p, .comment s :: rest => by
    simp [applyPolicy, elemsAllowed, elemsAllowed_apply p rest]
  | p, .elem n h a ch :: rest => by
    cases hp : polGet p n with
    | none =>
      simp [applyPolicy, hp, elemsAllowed, elemsAllowed_apply p ch,
        elemsAllowed_apply p rest]
    | some al =>
      have hattrs : attrsOk p n (filterScrub al a) = true := by
        simp only [attrsOk, hp, filterScrub, List.all_map, List.all_eq_true,
          List.mem_filter, Function.comp]
        intro x hx
        exact hx.2
      simp [applyPolicy, hp, elemsAllowed, hattrs, elemsAllowed_apply p ch,
        elemsAllowed_apply p rest]

/-- C2: whatever the fragment (in particular any fragment containing only
policy tags and attributes), after sanitization every rendered element has
a tag in the policy and only attributes from its allowed set; and an
allowed element retains exactly the attributes whose names are in its
allowed set (values scrubbed), discarding all others. -/
theorem sanitize_policy_closed (ps : String) (soup : List Node) :
    elemsAllowed (parsePolicy ps) (applyPolicy (parsePolicy ps) (stripComments soup)) = true
    ∧ (∀ (n : String) (a : List (String × String)) (ch : List Node) (al : List String),
        polGet (parsePolicy ps) n = some al →
        applyPolicy (parsePolicy ps) [Node.elem n false a ch]
          = [Node.elem n false (filterScrub al a) (applyPolicy (parsePolicy ps) ch)]) := by
  refine ⟨elemsAllowed_apply _ _, fun n a ch al h => ?_⟩
  simp [applyPolicy, h]

/-- C2 witness: the exact-retention clause of `sanitize_policy_closed` at
policy `"a:href"` on an `a` element with one allowed and one disallowed
attribute. -/
theorem sanitize_policy_closed_witness :
    applyPolicy (parsePolicy "a:href") [Node.elem "a" false [("href", "u"), ("onclick", "e")] []]
      = [Node.elem "a" false (filterScrub ["href"] [("href", "u"), ("onclick", "e")])
          (applyPolicy (parsePolicy "a:href") [])] :=
  (sanitize_policy_closed "a:href" []).2 "a" [("href", "u"), ("onclick", "e")] [] ["href"]
    (by decide)

/-- `jsSubAux` maps the empty string to itself at any fuel. -/
theorem jsSubAux_nil (f : Nat) : jsSubAux f ([] : List Char) = [] := by
  cases f <;> rfl

/-- `dropWhile` swallows a block of characters that all satisfy the
predicate. -/
theorem dropWhile_sat_append (p : Char → Bool) :
    ∀ (w l : List Char), (∀ c ∈ w, p c = true) →
      List.dropWhile p (w ++ l) = List.dropWhile p l
  | [], _, _ => rfl
  | c :: w, l, h => by
    have hc : p c = true := h c (by simp)
    simp only [List.cons_append, List.dropWhile_cons, hc, if_true]
    exact dropWhile_sat_append p w l fun x hx => h x (by simp [hx])

/-- C3 key lemma: the tail of `js_regex` fully matches any string built
from the remaining keyword characters with pure-whitespace separators
before each of them, provided the keyword characters are neither
whitespace nor `'&'`. -/
theorem matchRest_weave :
    ∀ (cs : List Char) (ss : List (List Char)),
      ss.length = cs.length →
      (∀ w ∈ ss, ∀ c ∈ w, isPyWs c = true) →
      (∀ c ∈ cs, isPyWs c = false ∧ c ≠ '&') →
      matchRest cs (weaveS ss cs) = some []
  | [], [], _, _, _ => rfl
  | [], _ :: _, hlen, _, _ => by simp at hlen
  | _ :: _, [], hlen, _, _ => by simp at hlen
  | c :: cs, w :: ss, hlen, hws, hkw => by
    have hc := hkw c (by simp)
    have hdw : List.dropWhile isPyWs (w ++ (c :: weaveS ss cs)) = c :: weaveS ss cs := by
      rw [dropWhile_sat_append isPyWs w _ (hws w (by simp))]
      simp [List.dropWhile_cons, hc.1]
    have htake : ¬((c :: weaveS ss cs).take 3 = ['&', '#', 'x']) := by
      intro hq
      rw [List.take_succ_cons] at hq
      exact hc.2 (List.head_eq_of_cons_eq hq)
    have hrec : matchRest cs (weaveS ss cs) = some [] :=
      matchRest_weave cs ss (by simpa using hlen) (fun u hu => hws u (by simp [hu]))
        (fun u hu => hkw u (by simp [hu]))
    show matchRest (c :: cs) (weaveS (w :: ss) (c :: cs)) = some []
    rw [show weaveS (w :: ss) (c :: cs) = w ++ (c :: weaveS ss cs) from rfl]
    simp only [matchRest, hdw, if_neg htake]
    simp [Option.orElse, hrec]

/-- C3 (amended): the scrubber deletes, case-sensitively, every substring
made of the ten literal characters of the keyword with arbitrary
whitespace before each character after the first (first conjunct), and
also tolerates one `&#x…` token in a separator (second conjunct, a
concrete hex-reference gap); but a case variant of the keyword is not
matched and survives unchanged (third conjunct): the pattern is compiled
without `re.IGNORECASE`, and an encoding that replaces a keyword character
by a character reference is not matched either, since all ten literal
characters are required. -/
theorem sanitize_scrub_amended :
    (∀ ss : List (List Char), ss.length = 9 →
      (∀ w ∈ ss, ∀ c ∈ w, isPyWs c = true) →
      js_sub (String.mk ('j' :: weaveS ss "avascript".toList)) = "")
    ∧ js_sub "ja&#x0000;vascript" = ""
    ∧ js_sub "JavaScript" = "JavaScript" := by
  refine ⟨fun ss hlen hws => ?_, by decide, by decide⟩
  have hm : jsMatchAt ('j' :: weaveS ss "avascript".toList) = some [] := by
    have h9 : ss.length = ("avascript".toList).length := by
      rw [hlen]; decide
    have hcs : ∀ c ∈ "avascript".toList, isPyWs c = false ∧ c ≠ '&' := by decide
    simp only [jsMatchAt, if_pos rfl]
    exact matchRest_weave _ ss h9 hws hcs
  have htl : (String.mk ('j' :: weaveS ss "avascript".toList)).toList
      = 'j' :: weaveS ss "avascript".toList := rfl
  unfold js_sub
  rw [htl, List.length_cons]
  rw [show jsSubAux ((weaveS ss "avascript".toList).length + 1)
        ('j' :: weaveS ss "avascript".toList)
      = (match jsMatchAt ('j' :: weaveS ss "avascript".toList) with
         | some rem => jsSubAux (weaveS ss "avascript".toList).length rem
         | none => 'j' :: jsSubAux (weaveS ss "avascript".toList).length
             (weaveS ss "avascript".toList)) from rfl]
  simp only [hm, jsSubAux_nil]

/-- C3 witness: the universal clause of `sanitize_scrub_amended` at the
concrete separator list `[" ", "", "\t", "", "", "\n", "", "", " "]` — the
keyword with whitespace interspersed is deleted entirely. -/
theorem sanitize_scrub_amended_witness :
    js_sub (String.mk ('j' :: weaveS
      [" ".toList, [], "\t".toList, [], [], "\n".toList, [], [], " ".toList]
      "avascript".toList)) = "" :=
  sanitize_scrub_amended.1
    [" ".toList, [], "\t".toList, [], [], "\n".toList, [], [], " ".toList]
    (by decide) (by decide)

/-- C3 counterexample: the claim fails as stated.  A retained `href` value
`"jjavascriptavascript"` is scrubbed to `"javascript"`, which still matches
the detection pattern (deleting a match can splice a new match together);
and the case variant `"JavaScript"`, which contains the keyword
case-insensitively, is not deleted at all, the pattern being compiled
without `re.IGNORECASE`; likewise `"java&#x73;cript"`, the keyword with one
character replaced by its numeric character reference, is not matched,
since the pattern requires all ten literal characters. -/
theorem sanitize_scrub_cex :
    sanitizeSoup "a:href" [Node.elem "a" false [("href", "jjavascriptavascript")] []]
      = "<a href=\"javascript\"></a>"
    ∧ jsSearch "javascript" = true
    ∧ js_sub "JavaScript" = "JavaScript"
    ∧ js_sub "java&#x73;cript" = "java&#x73;cript" := by
  refine ⟨?_, by decide, by decide, by decide⟩
  have h : polGet (parsePolicy "a:href") "a" = some ["href"] := by decide
  have h2 : js_sub "jjavascriptavascript" = "javascript" := by decide
  simp [sanitizeSoup, stripComments, applyPolicy, render, filterScrub, renderAttr, h, h2]
  decide

end BestFilters
